import Mathlib

/-!
Verification development for the rpc_protobuf_muduo repository.

The embedding below translates the RPC codec
(src/proto_rpc/rpc_framework/RpcCodec.cc), the RPC channel
(src/proto_rpc/rpc_framework/RpcChannel.cc), the byte buffer
(src/network/include/network/Buffer.h), the connector
(src/network/src/Connector.cc), the acceptor (src/network/src/Acceptor.cc),
the event loop (src/network/src/EventLoop.cc) and the TCP connection
(src/network/src/TcpConnection.cc) into Lean.

Bytes are modelled as natural numbers (well-formed data keeps them below
256); machine integers are modelled as Nat/Int with explicit reductions
modulo 2^32 where the C++ code truncates.  Byte sequences are lists.  The
payload serialization of the inner protobuf message is external to the
repository and is kept abstract as a pair of functions (a PayloadCodec).
-/

namespace network

/-- One step of the adler32 state update, from zlib: the running pair
(s1, s2), both reduced modulo 65521, absorbs one byte. -/
def adlerStep (s : Nat × Nat) (c : Nat) : Nat × Nat :=
  ((s.1 + c) % 65521, (s.2 + (s.1 + c) % 65521) % 65521)

/-- adler32 checksum with the zlib initial value 1, as used by
ProtoRpcCodec::checksum (RpcCodec.cc line 219): the final value is
s2 * 65536 + s1, always below 2^32. -/
def adler32 (data : List Nat) : Nat :=
  let s := data.foldl adlerStep (1, 0)
  s.2 * 65536 + s.1

/-- Big-endian value of a byte list (the bit pattern ProtoRpcCodec::asInt32
reads via networkToHost32). -/
def beVal (bs : List Nat) : Nat :=
  bs.foldl (fun acc b => acc * 256 + b) 0

/-- Big-endian 4-byte encoding of an integer truncated to 32 bits
(hostToNetwork32 of a cast to int32_t). -/
def be32 (n : Nat) : List Nat :=
  [n / 2 ^ 24 % 256, n / 2 ^ 16 % 256, n / 2 ^ 8 % 256, n % 256]

/-- Reinterpret a bit pattern (reduced mod 2^32) as a signed int32_t value. -/
def toInt32 (v : Nat) : Int :=
  if v % 2 ^ 32 < 2 ^ 31 then ((v % 2 ^ 32 : Nat) : Int)
  else ((v % 2 ^ 32 : Nat) : Int) - 2 ^ 32

/-- The 4 ASCII bytes of the frame tag "RPC0" (tag_ in RpcCodec.h). -/
def tagBytes : List Nat := [82, 80, 67, 48]

/-- kHeaderLen = sizeof(int32_t) (RpcCodec.h). -/
def kHeaderLen : Nat := 4

/-- kChecksumLen = sizeof(int32_t) (RpcCodec.h). -/
def kChecksumLen : Nat := 4

/-- kMaxMessageLen = 64 MiB (RpcCodec.h). -/
def kMaxMessageLen : Int := 64 * 1024 * 1024

/-- kMinMessageLen = 4 (RpcCodec.h, non-static member initialised to 4). -/
def kMinMessageLen : Int := 4

/-- The ErrorCode enum of ProtoRpcCodec (RpcCodec.h). -/
inductive ErrorCode where
  | kNoError
  | kInvalidLength
  | kCheckSumError
  | kInvalidNameLen
  | kUnknownMessageType
  | kParseError
deriving DecidableEq, Repr

/-- The external serialization of the inner protobuf message
(google::protobuf::Message::SerializeAsString / ParseFromArray), kept
abstract: an encoder to bytes and a partial decoder. -/
structure PayloadCodec (M : Type) where
  enc : M → List Nat
  dec : List Nat → Option M

/-- A message is well formed for a codec when the external codec
round-trips on it, its serialization consists of bytes, and the resulting
frame length 8 + payload stays within kMaxMessageLen. -/
def GoodMsg {M : Type} (c : PayloadCodec M) (m : M) : Prop :=
  c.dec (c.enc m) = some m ∧ (∀ b ∈ c.enc m, b < 256) ∧
    (c.enc m).length + 8 ≤ 64 * 1024 * 1024

/-- ProtoRpcCodec::validateChecksum (RpcCodec.cc lines 230-250) on the
`len` bytes that follow the length header: the trailing 4 bytes, read
big-endian, must equal adler32 over the rest, truncated to 32 bits. -/
def validateChecksum (frame : List Nat) : Bool :=
  beVal (frame.drop (frame.length - kChecksumLen)) ==
    adler32 (frame.take (frame.length - kChecksumLen)) % 2 ^ 32

/-- ProtoRpcCodec::parse (RpcCodec.cc lines 126-165): validate the
checksum, check the tag, then deserialize the payload bytes
(frame length minus checksum minus tag).  Returns the error code together
with the decoded message when deserialization succeeded. -/
def parse {M : Type} (c : PayloadCodec M) (frame : List Nat) :
    ErrorCode × Option M :=
  if validateChecksum frame then
    if frame.take 4 = tagBytes then
      match c.dec ((frame.drop 4).take (frame.length - kChecksumLen - 4)) with
      | some m => (ErrorCode.kNoError, some m)
      | none => (ErrorCode.kParseError, none)
    else (ErrorCode.kUnknownMessageType, none)
  else (ErrorCode.kCheckSumError, none)

/-- ProtoRpcCodec::onMessage (RpcCodec.cc lines 24-63), expressed on the
readable byte sequence of the input buffer: while at least
kMinMessageLen + kHeaderLen bytes are readable, peek the length as a
signed int32 without consuming; stop when it is out of range or the buffer
holds fewer than kHeaderLen + len bytes; otherwise parse one frame, and on
success emit the message and retrieve kHeaderLen + len bytes, on failure
stop without retrieving.  Returns the emitted messages in callback order
and the readable bytes left in the buffer. -/
def onMessage {M : Type} (c : PayloadCodec M) (buf : List Nat) :
    List M × List Nat :=
  if h8 : 8 ≤ buf.length then
    if hrange : toInt32 (beVal (buf.take 4)) > kMaxMessageLen ∨
        toInt32 (beVal (buf.take 4)) < kMinMessageLen then ([], buf)
    else if hlen : kHeaderLen +
        (toInt32 (beVal (buf.take 4))).toNat ≤ buf.length then
      match parse c ((buf.drop kHeaderLen).take
          (toInt32 (beVal (buf.take 4))).toNat) with
      | (ErrorCode.kNoError, some m) =>
        let r := onMessage c (buf.drop (kHeaderLen +
          (toInt32 (beVal (buf.take 4))).toNat))
        (m :: r.1, r.2)
      | _ => ([], buf)
    else ([], buf)
  else ([], buf)
termination_by buf.length
decreasing_by
  simp only [List.length_drop, kHeaderLen, kMinMessageLen, kMaxMessageLen] at *
  omega

/-- The bytes that ProtoRpcCodec::fillEmptyBuffer leaves readable for a
message with serialized payload `enc m`: length header, tag, payload,
adler32 checksum over tag and payload. -/
def encodeFrame {M : Type} (c : PayloadCodec M) (m : M) : List Nat :=
  let body := tagBytes ++ c.enc m
  be32 (body.length + kChecksumLen) ++ body ++ be32 (adler32 body)

/-- Feeding a sequence of network chunks to the decoder: each chunk is
appended to the connection input buffer (TcpConnection::handleRead) and
then ProtoRpcCodec::onMessage runs on the buffer.  The state is the list
of messages delivered so far and the bytes still buffered. -/
def feedChunks {M : Type} (c : PayloadCodec M)
    (st : List M × List Nat) (chunks : List (List Nat)) :
    List M × List Nat :=
  chunks.foldl
    (fun st ck =>
      let r := onMessage c (st.2 ++ ck)
      (st.1 ++ r.1, r.2)) st

/-- The byte stream of a sequence of envelopes: the concatenation of
their encoded frames. -/
def encStream {M : Type} (c : PayloadCodec M) (ms : List M) : List Nat :=
  (ms.map (encodeFrame c)).flatten

/-- q is an initial segment of s. -/
def isStartOf (q s : List Nat) : Prop := ∃ t, q ++ t = s

/-- A concrete payload codec used to witness the codec theorems: one
byte per message. -/
def natPayloadCodec : PayloadCodec Nat :=
  ⟨fun n => [n % 256],
   fun l => match l with
            | [b] => some b
            | _ => none⟩

/-- Buffer::kCheapPrepend (Buffer.h): the head margin reserved in front of
the readable region. -/
def kCheapPrepend : Nat := 8

/-- Buffer::kInitialSize (Buffer.h). -/
def kInitialSize : Nat := 1024 * 4

/-- The byte buffer of Buffer.h: backing storage with a reader index and a
writer index; [0, readerIndex) is prependable, [readerIndex, writerIndex)
readable, [writerIndex, storage.length) writable. -/
structure Buffer where
  storage : List Nat
  readerIndex : Nat
  writerIndex : Nat
deriving Repr, DecidableEq

namespace Buffer

/-- Buffer::Buffer(): fresh buffer of kCheapPrepend + kInitialSize zeroed
bytes with both indices at kCheapPrepend. -/
def mkDefault : Buffer :=
  ⟨List.replicate (kCheapPrepend + kInitialSize) 0, kCheapPrepend, kCheapPrepend⟩

def readableBytes (b : Buffer) : Nat := b.writerIndex - b.readerIndex

def writableBytes (b : Buffer) : Nat := b.storage.length - b.writerIndex

def prependableBytes (b : Buffer) : Nat := b.readerIndex

/-- The readable byte sequence, [readerIndex, writerIndex) of the storage. -/
def readable (b : Buffer) : List Nat :=
  (b.storage.drop b.readerIndex).take b.readableBytes

/-- std::copy of `data` into the storage starting at `pos`
(overwrite in place). -/
def setRange (s : List Nat) (pos : Nat) (data : List Nat) : List Nat :=
  s.take pos ++ data ++ s.drop (pos + data.length)

/-- std::vector::resize(n): truncate or extend with zeros to length n. -/
def listResize (s : List Nat) (n : Nat) : List Nat :=
  s.take n ++ List.replicate (n - s.length) 0

/-- Buffer::makeSpace (Buffer.h lines 314-326): grow the storage to
writerIndex + len when even compaction cannot provide len writable bytes
while keeping the head margin; otherwise compact the readable bytes back
to kCheapPrepend. -/
def makeSpace (len : Nat) (b : Buffer) : Buffer :=
  if b.writableBytes + b.prependableBytes < len + kCheapPrepend then
    { b with storage := listResize b.storage (b.writerIndex + len) }
  else
    { storage := setRange b.storage kCheapPrepend b.readable,
      readerIndex := kCheapPrepend,
      writerIndex := kCheapPrepend + b.readableBytes }

/-- Buffer::ensureWritableBytes (Buffer.h lines 115-120). -/
def ensureWritableBytes (len : Nat) (b : Buffer) : Buffer :=
  if b.writableBytes < len then makeSpace len b else b

/-- Buffer::append(const char*, size_t) (Buffer.h lines 95-109): ensure
space, copy at the write position, advance writerIndex. -/
def append (b : Buffer) (data : List Nat) : Buffer :=
  let b1 := ensureWritableBytes data.length b
  { b1 with storage := setRange b1.storage b1.writerIndex data,
            writerIndex := b1.writerIndex + data.length }

/-- Buffer::appendInt32 (Buffer.h lines 155-158): append the big-endian
bytes of the value truncated to 32 bits. -/
def appendInt32 (b : Buffer) (x : Nat) : Buffer :=
  b.append (be32 x)

/-- Buffer::prepend (Buffer.h lines 271-279): move readerIndex back by the
data length and copy the data there. -/
def prepend (b : Buffer) (data : List Nat) : Buffer :=
  { b with readerIndex := b.readerIndex - data.length,
           storage := setRange b.storage (b.readerIndex - data.length) data }

/-- Buffer::retrieveAll (Buffer.h lines 63-66). -/
def retrieveAll (b : Buffer) : Buffer :=
  { b with readerIndex := kCheapPrepend, writerIndex := kCheapPrepend }

/-- Buffer::retrieve (Buffer.h lines 42-49). -/
def retrieve (b : Buffer) (len : Nat) : Buffer :=
  if len < b.readableBytes then { b with readerIndex := b.readerIndex + len }
  else b.retrieveAll

end Buffer

/-- The canonical states fillEmptyBuffer moves through: reader index at
the head margin, given readable content, storage large enough. -/
def Buffer.Canon (b : Buffer) (content : List Nat) : Prop :=
  b.readerIndex = kCheapPrepend ∧
  b.writerIndex = kCheapPrepend + content.length ∧
  kCheapPrepend + content.length ≤ b.storage.length ∧
  b.readable = content

/-- ProtoRpcCodec::fillEmptyBuffer (RpcCodec.cc lines 171-196): append the
tag, append the serialized message (serializeToBuffer), append the adler32
checksum over the readable bytes so far, then prepend the total readable
length in network byte order. -/
def fillEmptyBuffer {M : Type} (c : PayloadCodec M) (buf : Buffer) (m : M) :
    Buffer :=
  let b1 := buf.append tagBytes
  let b2 := b1.append (c.enc m)
  let checkSum := adler32 b2.readable
  let b3 := b2.appendInt32 checkSum
  let len := b3.readableBytes
  b3.prepend (be32 len)

/-! ## RPC channel (RpcChannel.cc) -/

/-- Modelled from the spec: the message-type enum of the envelope
(rpc.proto is not among the repository sources); §3 of the spec gives
type ∈ {Request, Response, Error}. -/
inductive MessageType where
  | REQUEST
  | RESPONSE
  | ERROR
deriving DecidableEq, Repr

/-- Modelled from the spec: the ErrorCode enum of the envelope
(rpc.proto is not among the repository sources); §4.10 of the spec names
WrongProto, NoService, NoMethod, InvalidRequest next to the no-error
value, all of which RpcChannel.cc uses except NO_METHOD. -/
inductive RpcErrorCode where
  | NO_ERROR
  | WRONG_PROTO
  | NO_SERVICE
  | NO_METHOD
  | INVALID_REQUEST
deriving DecidableEq, Repr

/-- Modelled from the spec: the RPC envelope of §3 (rpc.proto is not among
the repository sources): type, id, service, method, request and response
payloads, error. -/
structure RpcMessage where
  type : MessageType := MessageType.REQUEST
  id : Int := 0
  service : String := ""
  method : String := ""
  request : List Nat := []
  response : List Nat := []
  error : RpcErrorCode := RpcErrorCode.NO_ERROR
deriving DecidableEq, Repr

/-- The server-side view of one registered protobuf service: the method
names its descriptor enumerates, and whether ParseFromString accepts a
given request payload (the generated protobuf code is external). -/
structure ServiceModel where
  methods : List String
  parseRequest : List Nat → Bool

/-- Observable actions of RpcChannel::handle_request_msg. -/
inductive DispatchEvent where
  | callMethod (service method : String)
deriving DecidableEq, Repr

/-- RpcChannel::handle_request_msg (RpcChannel.cc lines 147-208): start
from WRONG_PROTO; when the service table is set, look the service up, then
the method in its descriptor, then parse the request; on full success
invoke CallMethod and keep NO_ERROR, otherwise record the error of the
failing step (the method-not-found branch of line 193 assigns NO_SERVICE).
When the final error is not NO_ERROR, send a RESPONSE envelope carrying
the request id and the error, all other fields left default.  Returns the
envelope sent now (if any) and the dispatch events. -/
def handle_request_msg (services : Option (List (String × ServiceModel)))
    (msg : RpcMessage) : Option RpcMessage × List DispatchEvent :=
  let step : RpcErrorCode × List DispatchEvent :=
    match services with
    | none => (RpcErrorCode.WRONG_PROTO, [])
    | some svcs =>
      match svcs.lookup msg.service with
      | some svc =>
        if msg.method ∈ svc.methods then
          if svc.parseRequest msg.request then
            (RpcErrorCode.NO_ERROR, [DispatchEvent.callMethod msg.service msg.method])
          else (RpcErrorCode.INVALID_REQUEST, [])
        else (RpcErrorCode.NO_SERVICE, [])
      | none => (RpcErrorCode.NO_SERVICE, [])
  if step.1 ≠ RpcErrorCode.NO_ERROR then
    (some { type := MessageType.RESPONSE, id := msg.id, error := step.1 }, step.2)
  else (none, step.2)

/-- The C4 failing input: a REQUEST envelope for the registered service
with a method name its descriptor does not contain. -/
def missingMethodRequest : RpcMessage :=
  { type := MessageType.REQUEST, id := 1, service := "S",
    method := "Missing" }

/-- One entry of the outstanding-call table: whether the caller supplied a
response sink and whether it supplied a completion (the pointers of
struct OutstandingCall in RpcChannel.h). -/
structure OutstandingCall where
  response : Bool
  done : Bool
deriving DecidableEq, Repr

/-- Observable actions on an outstanding call. -/
inductive ChannelEvent where
  | filledSink (id : Int)
  | ranDone (id : Int)
  | releasedSink (id : Int)
  | releasedDone (id : Int)
deriving DecidableEq, Repr

/-- The outstanding-call table (std::map<int64_t, OutstandingCall>),
modelled as an association list; std::map keys are unique. -/
def Outstandings : Type := List (Int × OutstandingCall)

/-- map::erase of a key. -/
def eraseKey (id : Int) (st : Outstandings) : Outstandings :=
  st.filter (fun p => p.1 ≠ id)

/-- RpcChannel::handle_response_msg (RpcChannel.cc lines 107-140): under
the mutex, look the response id up and erase the entry; outside the lock,
when a response sink was stored, deserialize a non-empty payload into it,
run the completion when one was stored, and release the sink.  A missing
id leaves the table unchanged and produces no events. -/
def handle_response_msg (st : Outstandings) (msg : RpcMessage) :
    Outstandings × List ChannelEvent :=
  match st.lookup msg.id with
  | some out =>
    (eraseKey msg.id st,
      if out.response then
        (if msg.response ≠ [] then [ChannelEvent.filledSink msg.id] else []) ++
        (if out.done then [ChannelEvent.ranDone msg.id] else []) ++
        [ChannelEvent.releasedSink msg.id]
      else [])
  | none => (st, [])

/-- A sequence of inbound RESPONSE envelopes handled one after the other:
the final table and all events in order. -/
def processResponses (st : Outstandings) : List RpcMessage →
    Outstandings × List ChannelEvent
  | [] => (st, [])
  | msg :: msgs =>
    let r := handle_response_msg st msg
    let rest := processResponses r.1 msgs
    (rest.1, r.2 ++ rest.2)

/-- RpcChannel::~RpcChannel (RpcChannel.cc lines 24-31): every entry left
in the table is drained, deleting the stored response sink and completion
without running them. -/
def channelDtor (st : Outstandings) : List ChannelEvent :=
  st.flatMap (fun p => [ChannelEvent.releasedSink p.1, ChannelEvent.releasedDone p.1])

/-! ## Connector (Connector.cc) -/

/-- Modelled from the spec: Connector.h is not among the repository
sources; §4.7 of the spec has the retry delay start at a small initial
value, for which the customary value 500 ms is used. -/
def kInitRetryDelayMs : Nat := 500

/-- Modelled from the spec: Connector.h is not among the repository
sources; kMaxRetryDelayMs is the retry-delay cap, customarily 30000 ms. -/
def kMaxRetryDelayMs : Nat := 30 * 1000

inductive ConnectorStateEnum where
  | kDisconnected
  | kConnecting
  | kConnected
deriving DecidableEq, Repr

/-- Observable actions of the connector. -/
inductive ConnectorEvent where
  | closedSocket (fd : Nat)
  | scheduledAttempt (delayMs : Nat)
  | loggedRetryIn (delayMs : Nat)
  | loggedNoConnect
deriving DecidableEq, Repr

structure Connector where
  connect_ : Bool
  state_ : ConnectorStateEnum
  retryDelayMs_ : Nat
deriving DecidableEq, Repr

/-- Connector::Connector (Connector.cc lines 20-28). -/
def Connector.init : Connector :=
  ⟨false, ConnectorStateEnum.kDisconnected, kInitRetryDelayMs⟩

/-- Connector::retry (Connector.cc lines 205-221): close the failed
socket, set the state to kDisconnected; when the connect flag is set, log
the would-be retry delay — the timer rearm and the delay doubling of the
upstream code are commented out (lines 215-217), so no new attempt is
scheduled and retryDelayMs_ is never changed; otherwise log that no
connect is wanted. -/
def Connector.retry (c : Connector) (sockfd : Nat) :
    Connector × List ConnectorEvent :=
  let c' := { c with state_ := ConnectorStateEnum.kDisconnected }
  if c.connect_ then
    (c', [ConnectorEvent.closedSocket sockfd,
          ConnectorEvent.loggedRetryIn c.retryDelayMs_])
  else
    (c', [ConnectorEvent.closedSocket sockfd, ConnectorEvent.loggedNoConnect])

/-! ## Acceptor (Acceptor.cc) -/

/-- One outcome of ::accept on the listening socket: a new connection with
its peer address, or a failure with an errno value. -/
inductive AcceptAttempt where
  | conn (fd : Nat) (peer : Nat)
  | fail (errno : Nat)
deriving DecidableEq, Repr

/-- Observable actions of Acceptor::handleRead. -/
inductive AcceptorEvent where
  | newConn (fd : Nat) (peer : Nat)
  | closedFd (fd : Nat)
  | closedIdleFd
  | reopenedIdleFd
deriving DecidableEq, Repr

/-- errno value EMFILE. -/
def EMFILE : Nat := 24

/-- Acceptor::handleRead (Acceptor.cc lines 47-68): call accept exactly
once; on success invoke newConnectionCallback_(connfd, peerAddr) when the
callback is set, otherwise close the descriptor; on failure only log,
except for EMFILE where the reserved idle descriptor is closed, one
pending connection is accepted and immediately closed, and the idle
descriptor is reopened.  Input is the kernel queue of accept outcomes;
the result is the events plus the remaining queue. -/
def Acceptor.handleRead (newConnCbSet : Bool) (q : List AcceptAttempt) :
    List AcceptorEvent × List AcceptAttempt :=
  match q with
  | AcceptAttempt.conn fd peer :: rest =>
    if newConnCbSet then ([AcceptorEvent.newConn fd peer], rest)
    else ([AcceptorEvent.closedFd fd], rest)
  | AcceptAttempt.fail e :: rest =>
    if e = EMFILE then
      match rest with
      | AcceptAttempt.conn fd2 _ :: rest2 =>
        ([AcceptorEvent.closedIdleFd, AcceptorEvent.closedFd fd2,
          AcceptorEvent.reopenedIdleFd], rest2)
      | _ =>
        ([AcceptorEvent.closedIdleFd, AcceptorEvent.reopenedIdleFd], rest)
    else ([], rest)
  | [] => ([], [])

/-! ## Event loop (EventLoop.cc) -/

/-- EventLoop::wakeup (EventLoop.cc lines 192-198) writes sizeof(uint64_t)
bytes, i.e. 8, to the wakeup eventfd. -/
def wakeupWriteSize : Nat := 8

/-- The parts of the EventLoop state that queueInLoop and
doPendingFunctors touch: the pending task list (tasks are opaque ids),
the callingPendingFunctors_ flag, and the sizes of the writes issued to
the wakeup fd. -/
structure EventLoopState where
  pendingFunctors : List Nat
  callingPendingFunctors : Bool
  wakeupWrites : List Nat
deriving DecidableEq, Repr

/-- EventLoop::queueInLoop (EventLoop.cc lines 138-150): append the task
under the mutex; then, when the caller is not the loop thread or the loop
is currently running the pending functors, write to the wakeup fd. -/
def queueInLoop (isInLoopThread : Bool) (cb : Nat) (s : EventLoopState) :
    EventLoopState :=
  let s1 := { s with pendingFunctors := s.pendingFunctors ++ [cb] }
  if ¬ isInLoopThread ∨ s.callingPendingFunctors then
    { s1 with wakeupWrites := s1.wakeupWrites ++ [wakeupWriteSize] }
  else s1

/-- EventLoop::doPendingFunctors (EventLoop.cc lines 210-227): set
callingPendingFunctors_, swap the pending list into a local copy under the
mutex, run the local copy, clear the flag.  The tasks that the executed
functors queue during the iteration are the `queuedDuring` parameter; they
arrive through queueInLoop from the loop thread while the flag is set.
Returns the tasks that were executed and the final state. -/
def doPendingFunctors (s : EventLoopState) (queuedDuring : List Nat) :
    List Nat × EventLoopState :=
  let functors := s.pendingFunctors
  let s1 := { s with pendingFunctors := [], callingPendingFunctors := true }
  let s2 := queuedDuring.foldl (fun st cb => queueInLoop true cb st) s1
  (functors, { s2 with callingPendingFunctors := false })

/-! ## TCP connection (TcpConnection.cc) -/

inductive TcpStateE where
  | kConnecting
  | kConnected
  | kDisconnecting
  | kDisconnected
deriving DecidableEq, Repr

/-- The fields of TcpConnection that send and forceCloseWithDelay can
touch. -/
structure TcpConn where
  state_ : TcpStateE
  channelWriting : Bool
  outputBuffer : List Nat
  writeCompleteCbSet : Bool
deriving DecidableEq, Repr

/-- Observable actions of the send path. -/
inductive ConnEffect where
  | sockWrite (bytes : List Nat)
  | queuedWriteComplete
  | queuedSendTask (bytes : List Nat)
  | enabledWriting
  | loggedGiveUp
  | loggedError
deriving DecidableEq, Repr

/-- errno values EPIPE and ECONNRESET. -/
def EPIPE : Nat := 32

def ECONNRESET : Nat := 104

/-- TcpConnection::sendInLoop (TcpConnection.cc lines 97-133),
parameterized by the result the kernel gives to sockets::write (`nwroteRet`)
and by errno for a failed write: give up when disconnected; when the
channel is not writing and the output buffer is empty, try a direct write;
a failed write latches the fault flag on EPIPE/ECONNRESET; unless the
fault flag is set, any remainder is appended to the output buffer and
write interest is enabled if not already. -/
def sendInLoop (nwroteRet : Int) (errnoV : Nat) (c : TcpConn)
    (data : List Nat) : TcpConn × List ConnEffect :=
  if c.state_ = TcpStateE.kDisconnected then (c, [ConnEffect.loggedGiveUp])
  else
    let direct := ¬ c.channelWriting ∧ c.outputBuffer = []
    let nwrote : Nat :=
      if direct then (if nwroteRet ≥ 0 then nwroteRet.toNat else 0) else 0
    let faultError : Bool :=
      direct ∧ nwroteRet < 0 ∧ (errnoV = EPIPE ∨ errnoV = ECONNRESET)
    let evs1 : List ConnEffect :=
      if direct then
        [ConnEffect.sockWrite data] ++
        (if nwroteRet ≥ 0 then
          (if data.length - nwroteRet.toNat = 0 ∧ c.writeCompleteCbSet then
            [ConnEffect.queuedWriteComplete] else [])
        else [ConnEffect.loggedError])
      else []
    let remaining := data.length - nwrote
    if ¬ faultError ∧ remaining > 0 then
      let c1 := { c with outputBuffer := c.outputBuffer ++ data.drop nwrote }
      if ¬ c.channelWriting then
        ({ c1 with channelWriting := true }, evs1 ++ [ConnEffect.enabledWriting])
      else (c1, evs1)
    else (c, evs1)

/-- TcpConnection::send(Buffer*) (TcpConnection.cc lines 77-88): only when
the state is kConnected does anything happen — in the loop thread the
readable bytes go to sendInLoop and the caller buffer is drained;
otherwise the bytes are copied out of the caller buffer and a send task is
posted to the loop.  Returns the connection, the caller buffer after the
call, and the effects. -/
def TcpConn.send (inLoopThread : Bool) (nwroteRet : Int) (errnoV : Nat)
    (c : TcpConn) (callerBuf : List Nat) :
    TcpConn × List Nat × List ConnEffect :=
  if c.state_ = TcpStateE.kConnected then
    if inLoopThread then
      let r := sendInLoop nwroteRet errnoV c callerBuf
      (r.1, [], r.2)
    else
      (c, [], [ConnEffect.queuedSendTask callerBuf])
  else (c, callerBuf, [])

/-- TcpConnection::forceCloseWithDelay (TcpConnection.cc lines 173-177):
when the state is kConnected or kDisconnecting, set it to kDisconnecting;
the body contains nothing else — no timer, no close, no callback.  The
seconds argument of the source is unused there. -/
def TcpConn.forceCloseWithDelay (c : TcpConn) (seconds : Nat) :
    TcpConn × List ConnEffect :=
  if c.state_ = TcpStateE.kConnected ∨ c.state_ = TcpStateE.kDisconnecting then
    ({ c with state_ := TcpStateE.kDisconnecting }, [])
  else (c, [])

/-! ## Theorems -/

/-! ### Buffer lemmas -/

theorem listResize_length (s : List Nat) (n : Nat) :
    (Buffer.listResize s n).length = n := by
  simp [Buffer.listResize, List.length_take]
  omega

theorem setRange_length (s : List Nat) (pos : Nat) (d : List Nat)
    (h : pos ≤ s.length) :
    (Buffer.setRange s pos d).length = max s.length (pos + d.length) := by
  simp [Buffer.setRange, List.length_take]
  omega

/-- Resizing does not disturb a region that lies inside both lengths. -/
theorem slice_listResize (s : List Nat) (n ri k : Nat)
    (h1 : ri + k ≤ n) (h2 : ri + k ≤ s.length) :
    ((Buffer.listResize s n).drop ri).take k = (s.drop ri).take k := by
  rw [List.take_drop, List.take_drop]
  have htk : (Buffer.listResize s n).take (ri + k) = s.take (ri + k) := by
    rw [Buffer.listResize, List.take_append_eq_append_take]
    have hz : ri + k - (s.take n).length = 0 := by
      simp [List.length_take]
      omega
    rw [hz, List.take_zero, List.append_nil, List.take_take]
    have hm : min (ri + k) n = ri + k := by omega
    rw [hm]
  rw [htk]

/-- Writing at the writer index extends the readable slice by the data. -/
theorem slice_setRange_write (s : List Nat) (wi : Nat) (d : List Nat)
    (ri : Nat) (hri : ri ≤ wi) (hwi : wi ≤ s.length) :
    ((Buffer.setRange s wi d).drop ri).take (wi + d.length - ri) =
      (s.drop ri).take (wi - ri) ++ d := by
  have hlen : (s.take wi).length = wi := by
    simp [List.length_take]
    omega
  rw [Buffer.setRange, List.append_assoc, List.drop_append_eq_append_drop,
    hlen]
  have h0 : ri - wi = 0 := by omega
  rw [h0, List.drop_zero, List.take_append_eq_append_take]
  have hlen2 : ((s.take wi).drop ri).length = wi - ri := by
    simp [List.length_drop, hlen]
  rw [hlen2]
  have e1 : ((s.take wi).drop ri).take (wi + d.length - ri) =
      (s.take wi).drop ri := by
    apply List.take_of_length_le
    omega
  rw [e1]
  have e2 : wi + d.length - ri - (wi - ri) = d.length := by omega
  rw [e2, List.take_append_eq_append_take,
    List.take_of_length_le (Nat.le_refl d.length)]
  have e3 : d.length - d.length = 0 := by omega
  rw [e3, List.take_zero, List.append_nil]
  have e4 : (s.drop ri).take (wi - ri) = (s.take (ri + (wi - ri))).drop ri :=
    List.take_drop ri (wi - ri) s
  have e5 : ri + (wi - ri) = wi := by omega
  rw [e4, e5]

/-- Writing below the reader index puts the data right in front of the
readable slice. -/
theorem slice_setRange_front (s : List Nat) (pos : Nat) (d : List Nat)
    (k : Nat) (hpos : pos ≤ s.length) :
    ((Buffer.setRange s pos d).drop pos).take (d.length + k) =
      d ++ (s.drop (pos + d.length)).take k := by
  have hlen : (s.take pos).length = pos := by
    simp [List.length_take]
    omega
  rw [Buffer.setRange, List.append_assoc, List.drop_append_eq_append_drop,
    hlen]
  have h0 : pos - pos = 0 := by omega
  rw [h0, List.drop_zero]
  have e1 : (s.take pos).drop pos = [] := by
    apply List.drop_of_length_le
    omega
  rw [e1, List.nil_append, List.take_append_eq_append_take,
    List.take_of_length_le (show d.length ≤ d.length + k by omega)]
  have e2 : d.length + k - d.length = k := by omega
  rw [e2]

theorem canon_mkDefault : Buffer.Canon Buffer.mkDefault [] := by
  refine ⟨rfl, rfl, ?_, ?_⟩
  · show kCheapPrepend + (0 : Nat) ≤
      (List.replicate (kCheapPrepend + kInitialSize) 0).length
    rw [List.length_replicate]
    omega
  · show (Buffer.mkDefault.storage.drop kCheapPrepend).take
      Buffer.mkDefault.readableBytes = []
    have : Buffer.mkDefault.readableBytes = 0 := rfl
    rw [this, List.take_zero]

/-- ensureWritableBytes on a canonical buffer stays canonical, keeps the
writer index, and guarantees the requested writable room. -/
theorem canon_ensure (b : Buffer) (content : List Nat) (len : Nat)
    (h : Buffer.Canon b content) :
    Buffer.Canon (Buffer.ensureWritableBytes len b) content ∧
      len ≤ (Buffer.ensureWritableBytes len b).writableBytes ∧
      (Buffer.ensureWritableBytes len b).writerIndex = b.writerIndex := by
  obtain ⟨hri, hwi, hst, hrd⟩ := h
  unfold Buffer.ensureWritableBytes
  by_cases hcap : b.writableBytes < len
  · rw [if_pos hcap]
    have hwb : b.writableBytes = b.storage.length - b.writerIndex := rfl
    have hpp : b.prependableBytes = b.readerIndex := rfl
    have hcond : b.writableBytes + b.prependableBytes <
        len + kCheapPrepend := by
      rw [hwb, hpp]
      omega
    unfold Buffer.makeSpace
    rw [if_pos hcond]
    have hlen1 : (Buffer.listResize b.storage
        (b.writerIndex + len)).length = b.writerIndex + len :=
      listResize_length _ _
    refine ⟨⟨hri, hwi, ?_, ?_⟩, ?_, rfl⟩
    · simp only [hlen1]
      omega
    · show ((Buffer.listResize b.storage (b.writerIndex + len)).drop
        b.readerIndex).take (b.writerIndex - b.readerIndex) = content
      rw [slice_listResize b.storage (b.writerIndex + len) b.readerIndex
        (b.writerIndex - b.readerIndex) (by omega) (by omega)]
      exact hrd
    · show len ≤ (Buffer.listResize b.storage
        (b.writerIndex + len)).length - b.writerIndex
      rw [hlen1]
      omega
  · rw [if_neg hcap]
    exact ⟨⟨hri, hwi, hst, hrd⟩, by omega, rfl⟩

/-- Appending to a canonical buffer appends to its readable content. -/
theorem canon_append (b : Buffer) (content d : List Nat)
    (h : Buffer.Canon b content) :
    Buffer.Canon (b.append d) (content ++ d) := by
  obtain ⟨⟨hri, hwi, hst, hrd⟩, hroom, hwieq⟩ :=
    canon_ensure b content d.length h
  unfold Buffer.append
  set b1 := Buffer.ensureWritableBytes d.length b with hb1
  have hwb1 : b1.writableBytes = b1.storage.length - b1.writerIndex := rfl
  refine ⟨hri, ?_, ?_, ?_⟩
  · show b1.writerIndex + d.length = kCheapPrepend + (content ++ d).length
    rw [List.length_append]
    omega
  · show kCheapPrepend + (content ++ d).length ≤
      (Buffer.setRange b1.storage b1.writerIndex d).length
    rw [setRange_length b1.storage b1.writerIndex d (by omega),
      List.length_append]
    omega
  · show ((Buffer.setRange b1.storage b1.writerIndex d).drop
      b1.readerIndex).take (b1.writerIndex + d.length - b1.readerIndex) =
        content ++ d
    rw [slice_setRange_write b1.storage b1.writerIndex d b1.readerIndex
      (by omega) (by omega)]
    unfold Buffer.readable Buffer.readableBytes at hrd
    rw [hrd]

/-- Prepending into the head margin of a canonical buffer: the data ends
up in front of the readable content, the reader index moves back, the
writer index stays. -/
theorem canon_prepend (b : Buffer) (content d : List Nat)
    (h : Buffer.Canon b content) (hd : d.length ≤ kCheapPrepend) :
    (b.prepend d).readable = d ++ content ∧
      (b.prepend d).readerIndex = kCheapPrepend - d.length ∧
      (b.prepend d).writerIndex = b.writerIndex := by
  obtain ⟨hri, hwi, hst, hrd⟩ := h
  refine ⟨?_, by simp [Buffer.prepend, hri], rfl⟩
  unfold Buffer.prepend Buffer.readable Buffer.readableBytes
  simp only
  have hpos : b.readerIndex - d.length ≤ b.storage.length := by
    simp [kCheapPrepend] at hri hst ⊢
    omega
  have harith : b.writerIndex - (b.readerIndex - d.length) =
      d.length + content.length := by
    simp [kCheapPrepend] at *
    omega
  rw [harith]
  have hslice := slice_setRange_front b.storage
    (b.readerIndex - d.length) d content.length hpos
  have harith2 : b.readerIndex - d.length + d.length = b.readerIndex := by
    simp [kCheapPrepend] at *
    omega
  rw [harith2] at hslice
  rw [hslice]
  unfold Buffer.readable Buffer.readableBytes at hrd
  have harith3 : b.writerIndex - b.readerIndex = content.length := by omega
  rw [harith3] at hrd
  rw [hrd]

theorem be32_length (n : Nat) : (be32 n).length = 4 := rfl

/-! ### adler32 and byte arithmetic -/

theorem adler_fold_bound (l : List Nat) (s : Nat × Nat)
    (h1 : s.1 < 65521) (h2 : s.2 < 65521) :
    (l.foldl adlerStep s).1 < 65521 ∧ (l.foldl adlerStep s).2 < 65521 := by
  induction l generalizing s with
  | nil => exact ⟨h1, h2⟩
  | cons c t ih =>
    simp only [List.foldl_cons]
    exact ih (adlerStep s c)
      (Nat.mod_lt _ (by norm_num)) (Nat.mod_lt _ (by norm_num))

theorem adler32_lt (l : List Nat) : adler32 l < 2 ^ 32 := by
  obtain ⟨h1, h2⟩ := adler_fold_bound l (1, 0) (by norm_num) (by norm_num)
  show (l.foldl adlerStep (1, 0)).2 * 65536 +
    (l.foldl adlerStep (1, 0)).1 < 2 ^ 32
  omega

/-- The low half of the running adler pair is the byte sum plus one,
reduced modulo 65521. -/
theorem adler_fold_fst (l : List Nat) (s : Nat × Nat) (h1 : s.1 < 65521) :
    (l.foldl adlerStep s).1 = (s.1 + l.sum) % 65521 := by
  induction l generalizing s with
  | nil =>
    simp only [List.foldl_nil, List.sum_nil, Nat.add_zero]
    omega
  | cons c t ih =>
    simp only [List.foldl_cons, List.sum_cons]
    rw [ih (adlerStep s c) (Nat.mod_lt _ (by norm_num))]
    show ((s.1 + c) % 65521 + t.sum) % 65521 = (s.1 + (c + t.sum)) % 65521
    omega

theorem adler32_mod_65536 (l : List Nat) :
    adler32 l % 65536 = (1 + l.sum) % 65521 := by
  obtain ⟨h1, h2⟩ := adler_fold_bound l (1, 0) (by norm_num) (by norm_num)
  have hf := adler_fold_fst l (1, 0) (by norm_num)
  show ((l.foldl adlerStep (1, 0)).2 * 65536 +
    (l.foldl adlerStep (1, 0)).1) % 65536 = (1 + l.sum) % 65521
  have hf2 : (l.foldl adlerStep (1, 0)).1 = (1 + l.sum) % 65521 := hf
  omega

/-- adler32 detects a change of a single byte as long as the difference
stays below the modulus (all byte values do). -/
theorem adler32_flip (x y : List Nat) (a b : Nat)
    (ha : a < 65521) (hb : b < 65521) (hne : a ≠ b) :
    adler32 (x ++ a :: y) ≠ adler32 (x ++ b :: y) := by
  intro he
  have h1 := adler32_mod_65536 (x ++ a :: y)
  have h2 := adler32_mod_65536 (x ++ b :: y)
  rw [he, h2] at h1
  simp only [List.sum_append, List.sum_cons] at h1
  omega

/-- adler32 changes when one in-bounds position is set to a different
byte value. -/
theorem adler32_set_ne (l : List Nat) (i : Nat) (v : Nat)
    (hi : i < l.length) (hl : l.get ⟨i, hi⟩ < 65521) (hv : v < 65521)
    (hne : v ≠ l.get ⟨i, hi⟩) :
    adler32 (l.set i v) ≠ adler32 l := by
  rw [List.set_eq_take_cons_drop v hi]
  conv_rhs => rw [← List.take_append_drop i l, List.drop_eq_get_cons hi]
  exact adler32_flip (l.take i) (l.drop (i + 1)) v (l.get ⟨i, hi⟩)
    hv hl hne

theorem beVal_be32 (n : Nat) : beVal (be32 n) = n % 2 ^ 32 := by
  unfold beVal be32
  simp only [List.foldl_cons, List.foldl_nil]
  have e24 : (2 : Nat) ^ 24 = 16777216 := by norm_num
  have e16 : (2 : Nat) ^ 16 = 65536 := by norm_num
  have e8 : (2 : Nat) ^ 8 = 256 := by norm_num
  have e32 : (2 : Nat) ^ 32 = 4294967296 := by norm_num
  rw [e24, e16, e8, e32]
  omega

theorem be32_bytes_lt (n : Nat) : ∀ b ∈ be32 n, b < 256 := by
  intro b hb
  simp only [be32, List.mem_cons, List.not_mem_nil, or_false] at hb
  rcases hb with h | h | h | h <;> subst h <;>
    exact Nat.mod_lt _ (by norm_num)

theorem toInt32_small (v : Nat) (h : v < 2 ^ 31) : toInt32 v = (v : Int) := by
  have h32 : v < 2 ^ 32 := lt_trans h (by norm_num)
  unfold toInt32
  rw [Nat.mod_eq_of_lt h32, if_pos h]

/-! ### onMessage stepping -/

theorem onMessage_short {M : Type} (c : PayloadCodec M) (buf : List Nat)
    (h : buf.length < 8) : onMessage c buf = ([], buf) := by
  rw [onMessage]
  rw [dif_neg (by omega)]

theorem onMessage_stop_range {M : Type} (c : PayloadCodec M)
    (buf : List Nat) (h8 : 8 ≤ buf.length)
    (hrange : toInt32 (beVal (buf.take 4)) > kMaxMessageLen ∨
      toInt32 (beVal (buf.take 4)) < kMinMessageLen) :
    onMessage c buf = ([], buf) := by
  rw [onMessage]
  rw [dif_pos h8, dif_pos hrange]

theorem onMessage_stop_incomplete {M : Type} (c : PayloadCodec M)
    (buf : List Nat) (h8 : 8 ≤ buf.length)
    (hrange : ¬ (toInt32 (beVal (buf.take 4)) > kMaxMessageLen ∨
      toInt32 (beVal (buf.take 4)) < kMinMessageLen))
    (hshort : buf.length <
      kHeaderLen + (toInt32 (beVal (buf.take 4))).toNat) :
    onMessage c buf = ([], buf) := by
  rw [onMessage]
  rw [dif_pos h8, dif_neg hrange, dif_neg (by omega)]

theorem onMessage_stop_parsefail {M : Type} (c : PayloadCodec M)
    (buf : List Nat) (h8 : 8 ≤ buf.length)
    (hrange : ¬ (toInt32 (beVal (buf.take 4)) > kMaxMessageLen ∨
      toInt32 (beVal (buf.take 4)) < kMinMessageLen))
    (hlen : kHeaderLen + (toInt32 (beVal (buf.take 4))).toNat ≤ buf.length)
    (hfail : (parse c ((buf.drop kHeaderLen).take
      (toInt32 (beVal (buf.take 4))).toNat)).1 ≠ ErrorCode.kNoError) :
    onMessage c buf = ([], buf) := by
  rw [onMessage]
  rw [dif_pos h8, dif_neg hrange, dif_pos hlen]
  rcases hp : parse c ((buf.drop kHeaderLen).take
    (toInt32 (beVal (buf.take 4))).toNat) with ⟨e, om⟩
  rw [hp] at hfail
  cases e <;> cases om <;> simp_all

theorem onMessage_step_success {M : Type} (c : PayloadCodec M)
    (buf : List Nat) (m : M) (h8 : 8 ≤ buf.length)
    (hrange : ¬ (toInt32 (beVal (buf.take 4)) > kMaxMessageLen ∨
      toInt32 (beVal (buf.take 4)) < kMinMessageLen))
    (hlen : kHeaderLen + (toInt32 (beVal (buf.take 4))).toNat ≤ buf.length)
    (hparse : parse c ((buf.drop kHeaderLen).take
      (toInt32 (beVal (buf.take 4))).toNat) = (ErrorCode.kNoError, some m)) :
    onMessage c buf =
      (m :: (onMessage c (buf.drop (kHeaderLen +
          (toInt32 (beVal (buf.take 4))).toNat))).1,
        (onMessage c (buf.drop (kHeaderLen +
          (toInt32 (beVal (buf.take 4))).toNat))).2) := by
  rw [onMessage]
  rw [dif_pos h8, dif_neg hrange, dif_pos hlen, hparse]

/-! ### parse on single frames -/

theorem tagBytes_length : tagBytes.length = 4 := rfl

theorem encodeFrame_grouped {M : Type} (c : PayloadCodec M) (m : M) :
    encodeFrame c m =
      be32 ((tagBytes ++ c.enc m).length + kChecksumLen) ++
        ((tagBytes ++ c.enc m) ++ be32 (adler32 (tagBytes ++ c.enc m))) := by
  unfold encodeFrame
  rw [List.append_assoc]

theorem encodeFrame_length {M : Type} (c : PayloadCodec M) (m : M) :
    (encodeFrame c m).length = 12 + (c.enc m).length := by
  unfold encodeFrame
  simp only [List.length_append, be32_length, tagBytes_length, kChecksumLen]
  omega

/-- parse accepts a frame body consisting of the tag, a payload the
external codec decodes, and the adler32 checksum over tag and payload. -/
theorem parse_frame_body {M : Type} (c : PayloadCodec M) (p : List Nat)
    (m : M) (hdec : c.dec p = some m) :
    parse c ((tagBytes ++ p) ++ be32 (adler32 (tagBytes ++ p))) =
      (ErrorCode.kNoError, some m) := by
  have hblen : (tagBytes ++ p).length = 4 + p.length := by
    simp [tagBytes_length]
  have hflen : ((tagBytes ++ p) ++ be32 (adler32 (tagBytes ++ p))).length =
      (tagBytes ++ p).length + 4 := by
    simp [be32_length]
    omega
  unfold parse validateChecksum
  rw [hflen]
  have e1 : (tagBytes ++ p).length + 4 - kChecksumLen =
      (tagBytes ++ p).length := by
    simp [kChecksumLen]
  rw [e1, List.drop_left, List.take_left]
  rw [beVal_be32, Nat.mod_eq_of_lt (adler32_lt _)]
  rw [if_pos (beq_self_eq_true _)]
  have e2 : ((tagBytes ++ p) ++ be32 (adler32 (tagBytes ++ p))).take 4 =
      tagBytes := by
    rw [List.append_assoc,
      List.take_append_of_le_length (by rw [tagBytes_length])]
    exact List.take_of_length_le (by rw [tagBytes_length])
  rw [if_pos e2]
  have e3 : ((tagBytes ++ p) ++ be32 (adler32 (tagBytes ++ p))).drop 4 =
      p ++ be32 (adler32 (tagBytes ++ p)) := by
    rw [List.append_assoc, ← tagBytes_length, List.drop_left]
  rw [e3]
  have e4 : (tagBytes ++ p).length - 4 = p.length := by
    rw [hblen]
    omega
  rw [e4, List.take_left, hdec]

theorem encodeFrame_take4 {M : Type} (c : PayloadCodec M) (m : M) :
    (encodeFrame c m).take 4 = be32 ((c.enc m).length + 8) := by
  rw [encodeFrame_grouped]
  rw [List.take_append_of_le_length (by rw [be32_length])]
  rw [List.take_of_length_le (by rw [be32_length])]
  congr 1

theorem frame_header_val {M : Type} (c : PayloadCodec M) (m : M)
    (h : GoodMsg c m) :
    toInt32 (beVal ((encodeFrame c m).take 4)) =
      (((c.enc m).length + 8 : Nat) : Int) := by
  obtain ⟨_, _, hsize⟩ := h
  rw [encodeFrame_take4, beVal_be32,
    Nat.mod_eq_of_lt (by omega : (c.enc m).length + 8 < 2 ^ 32),
    toInt32_small _ (by omega)]

theorem frame_header_range {M : Type} (c : PayloadCodec M) (m : M)
    (h : GoodMsg c m) :
    ¬ (toInt32 (beVal ((encodeFrame c m).take 4)) > kMaxMessageLen ∨
      toInt32 (beVal ((encodeFrame c m).take 4)) < kMinMessageLen) := by
  rw [frame_header_val c m h]
  obtain ⟨_, _, hsize⟩ := h
  unfold kMaxMessageLen kMinMessageLen
  intro hcon
  rcases hcon with hcon | hcon <;> omega

/-- One complete well-formed frame at the head of the buffer is decoded
and consumed, whatever follows it. -/
theorem onMessage_frame {M : Type} (c : PayloadCodec M) (m : M)
    (rest : List Nat) (h : GoodMsg c m) :
    onMessage c (encodeFrame c m ++ rest) =
      (m :: (onMessage c rest).1, (onMessage c rest).2) := by
  have hframelen := encodeFrame_length c m
  have htake4 : (encodeFrame c m ++ rest).take 4 = (encodeFrame c m).take 4 :=
    List.take_append_of_le_length (by omega)
  have hval : toInt32 (beVal ((encodeFrame c m ++ rest).take 4)) =
      (((c.enc m).length + 8 : Nat) : Int) := by
    rw [htake4]
    exact frame_header_val c m h
  have htoNat : (toInt32 (beVal ((encodeFrame c m ++ rest).take 4))).toNat =
      (c.enc m).length + 8 := by
    rw [hval]
    rfl
  have h8 : 8 ≤ (encodeFrame c m ++ rest).length := by
    rw [List.length_append]
    omega
  have hrange : ¬ (toInt32 (beVal ((encodeFrame c m ++ rest).take 4)) >
      kMaxMessageLen ∨
      toInt32 (beVal ((encodeFrame c m ++ rest).take 4)) <
      kMinMessageLen) := by
    rw [htake4]
    exact frame_header_range c m h
  have hlenOK : kHeaderLen +
      (toInt32 (beVal ((encodeFrame c m ++ rest).take 4))).toNat ≤
      (encodeFrame c m ++ rest).length := by
    rw [htoNat, List.length_append]
    simp [kHeaderLen]
    omega
  have hdrop : (encodeFrame c m ++ rest).drop kHeaderLen =
      ((tagBytes ++ c.enc m) ++ be32 (adler32 (tagBytes ++ c.enc m))) ++
        rest := by
    rw [encodeFrame_grouped, List.append_assoc]
    have hk : kHeaderLen =
        (be32 ((tagBytes ++ c.enc m).length + kChecksumLen)).length := rfl
    rw [hk, List.drop_left]
  have hslice : ((encodeFrame c m ++ rest).drop kHeaderLen).take
      (toInt32 (beVal ((encodeFrame c m ++ rest).take 4))).toNat =
      (tagBytes ++ c.enc m) ++ be32 (adler32 (tagBytes ++ c.enc m)) := by
    rw [hdrop, htoNat]
    have hx : (c.enc m).length + 8 =
        ((tagBytes ++ c.enc m) ++
          be32 (adler32 (tagBytes ++ c.enc m))).length := by
      simp [tagBytes_length, be32_length]
      omega
    rw [hx, List.take_left]
  have hparse : parse c (((encodeFrame c m ++ rest).drop kHeaderLen).take
      (toInt32 (beVal ((encodeFrame c m ++ rest).take 4))).toNat) =
      (ErrorCode.kNoError, some m) := by
    rw [hslice]
    exact parse_frame_body c (c.enc m) m h.1
  have hdropall : (encodeFrame c m ++ rest).drop (kHeaderLen +
      (toInt32 (beVal ((encodeFrame c m ++ rest).take 4))).toNat) = rest := by
    rw [htoNat]
    have hx : kHeaderLen + ((c.enc m).length + 8) =
        (encodeFrame c m).length := by
      rw [hframelen]
      simp [kHeaderLen]
      omega
    rw [hx, List.drop_left]
  rw [onMessage_step_success c (encodeFrame c m ++ rest) m h8 hrange
    hlenOK hparse, hdropall]

/-- A proper initial segment of a well-formed frame makes the decoder
stop without emitting anything and without consuming anything. -/
theorem onMessage_partial {M : Type} (c : PayloadCodec M) (m : M)
    (q : List Nat) (h : GoodMsg c m) (hq : isStartOf q (encodeFrame c m))
    (hne : q ≠ encodeFrame c m) : onMessage c q = ([], q) := by
  obtain ⟨t, ht⟩ := hq
  have hqlen : q.length < (encodeFrame c m).length := by
    have hl := congrArg List.length ht
    rw [List.length_append] at hl
    cases t with
    | nil =>
      exfalso
      apply hne
      simpa using ht
    | cons a t2 =>
      simp only [List.length_cons] at hl
      omega
  by_cases h8 : 8 ≤ q.length
  · have htake4 : q.take 4 = (encodeFrame c m).take 4 := by
      rw [← ht, List.take_append_of_le_length (by omega)]
    have hrange : ¬ (toInt32 (beVal (q.take 4)) > kMaxMessageLen ∨
        toInt32 (beVal (q.take 4)) < kMinMessageLen) := by
      rw [htake4]
      exact frame_header_range c m h
    have htoNat : (toInt32 (beVal (q.take 4))).toNat =
        (c.enc m).length + 8 := by
      rw [htake4, frame_header_val c m h]
      rfl
    apply onMessage_stop_incomplete c q h8 hrange
    rw [htoNat]
    have := encodeFrame_length c m
    simp [kHeaderLen]
    omega
  · exact onMessage_short c q (by omega)

/-- A concatenation of well-formed frames followed by a partial frame is
decoded into exactly those messages, leaving the partial frame. -/
theorem onMessage_stream {M : Type} (c : PayloadCodec M) (ms : List M)
    (q : List Nat) (hms : ∀ m ∈ ms, GoodMsg c m)
    (hq : q = [] ∨ ∃ m0, GoodMsg c m0 ∧ isStartOf q (encodeFrame c m0) ∧
      q ≠ encodeFrame c m0) :
    onMessage c (encStream c ms ++ q) = (ms, q) := by
  induction ms with
  | nil =>
    simp only [encStream, List.map_nil, List.flatten_nil, List.nil_append]
    rcases hq with rfl | ⟨m0, hg, hs, hne⟩
    · exact onMessage_short c [] (by simp)
    · exact onMessage_partial c m0 q hg hs hne
  | cons m t ih =>
    have hgm : GoodMsg c m := hms m (by simp)
    have hstream : encStream c (m :: t) =
        encodeFrame c m ++ encStream c t := by
      simp [encStream]
    rw [hstream, List.append_assoc, onMessage_frame c m _ hgm,
      ih (fun x hx => hms x (by simp [hx]))]

/-- Any initial segment of a frame stream splits into whole frames
followed by a partial frame. -/
theorem stream_decompose {M : Type} (c : PayloadCodec M) (ms : List M)
    (q : List Nat) (hms : ∀ m ∈ ms, GoodMsg c m)
    (hq : isStartOf q (encStream c ms)) :
    ∃ ms1 ms2 r, ms = ms1 ++ ms2 ∧ q = encStream c ms1 ++ r ∧
      ((r = [] ∧ ms2 = []) ∨ ∃ m2 t2, ms2 = m2 :: t2 ∧
        isStartOf r (encodeFrame c m2) ∧ r ≠ encodeFrame c m2) := by
  induction ms generalizing q with
  | nil =>
    obtain ⟨u, hu⟩ := hq
    simp only [encStream, List.map_nil, List.flatten_nil,
      List.append_eq_nil] at hu
    refine ⟨[], [], [], by simp, ?_, Or.inl ⟨rfl, rfl⟩⟩
    simp [encStream, hu.1]
  | cons m t ih =>
    obtain ⟨u, hu⟩ := hq
    have hstream : encStream c (m :: t) =
        encodeFrame c m ++ encStream c t := by
      simp [encStream]
    rw [hstream] at hu
    by_cases hlen : q.length < (encodeFrame c m).length
    · have hqtake : q = (encodeFrame c m).take q.length := by
        calc q = (q ++ u).take q.length := (List.take_left q u).symm
          _ = (encodeFrame c m ++ encStream c t).take q.length := by
            rw [hu]
          _ = (encodeFrame c m).take q.length :=
            List.take_append_of_le_length (by omega)
      have hqf : isStartOf q (encodeFrame c m) := by
        refine ⟨(encodeFrame c m).drop q.length, ?_⟩
        have hta := List.take_append_drop q.length (encodeFrame c m)
        rw [← hqtake] at hta
        exact hta
      have hneq : q ≠ encodeFrame c m := by
        intro he
        rw [he] at hlen
        omega
      exact ⟨[], m :: t, q, by simp, by simp [encStream],
        Or.inr ⟨m, t, rfl, hqf, hneq⟩⟩
    · push_neg at hlen
      have htake : q.take (encodeFrame c m).length = encodeFrame c m := by
        calc q.take (encodeFrame c m).length =
            (q ++ u).take (encodeFrame c m).length :=
              (List.take_append_of_le_length hlen).symm
          _ = (encodeFrame c m ++ encStream c t).take
              (encodeFrame c m).length := by rw [hu]
          _ = encodeFrame c m := List.take_left _ _
      have hqeq : q = encodeFrame c m ++
          q.drop (encodeFrame c m).length := by
        conv_lhs => rw [← List.take_append_drop (encodeFrame c m).length q]
        rw [htake]
      have hq2 : isStartOf (q.drop (encodeFrame c m).length)
          (encStream c t) := by
        refine ⟨u, ?_⟩
        have h3 : encodeFrame c m ++
            (q.drop (encodeFrame c m).length ++ u) =
            encodeFrame c m ++ encStream c t := by
          rw [← List.append_assoc, ← hqeq, hu]
        exact List.append_cancel_left h3
      obtain ⟨ms1, ms2, r, hms12, hqr, htail⟩ :=
        ih _ (fun x hx => hms x (List.mem_cons_of_mem m hx)) hq2
      refine ⟨m :: ms1, ms2, r, by simp [hms12], ?_, htail⟩
      rw [hqeq, hqr]
      simp [encStream, List.append_assoc]

/-- Feeding the chunks of a frame stream: all complete frames are
delivered, the leftover partial frame is carried over, and at the end of
the stream nothing is left. -/
theorem feedChunks_stream {M : Type} (c : PayloadCodec M)
    (chunks : List (List Nat)) :
    ∀ (ms : List M) (q : List Nat) (acc : List M),
    (∀ m ∈ ms, GoodMsg c m) →
    ((q = [] ∧ ms = []) ∨ ∃ m2 t2, ms = m2 :: t2 ∧
      isStartOf q (encodeFrame c m2) ∧ q ≠ encodeFrame c m2) →
    q ++ chunks.flatten = encStream c ms →
    feedChunks c (acc, q) chunks = (acc ++ ms, []) := by
  induction chunks with
  | nil =>
    intro ms q acc hms hready hstream
    simp only [List.flatten_nil, List.append_nil] at hstream
    rcases hready with ⟨rfl, rfl⟩ | ⟨m2, t2, rfl, ⟨u, hu⟩, hne⟩
    · simp [feedChunks]
    · exfalso
      have hsl : encStream c (m2 :: t2) =
          encodeFrame c m2 ++ encStream c t2 := by
        simp [encStream]
      rw [hsl] at hstream
      have h1 := congrArg List.length hu
      have h2 := congrArg List.length hstream
      simp only [List.length_append] at h1 h2
      have hu0 : u.length = 0 := by omega
      have hunil : u = [] := List.eq_nil_of_length_eq_zero hu0
      subst hunil
      rw [List.append_nil] at hu
      exact hne hu
  | cons ck cks ih =>
    intro ms q acc hms hready hstream
    have hflat : q ++ (ck ++ cks.flatten) = encStream c ms := by
      simpa [List.flatten_cons] using hstream
    have hbufstart : isStartOf (q ++ ck) (encStream c ms) := by
      refine ⟨cks.flatten, ?_⟩
      rw [List.append_assoc]
      exact hflat
    obtain ⟨ms1, ms2, r, hms12, hqr, htail⟩ :=
      stream_decompose c ms (q ++ ck) hms hbufstart
    have hms1 : ∀ m ∈ ms1, GoodMsg c m :=
      fun x hx => hms x (by simp [hms12, hx])
    have hms2g : ∀ m ∈ ms2, GoodMsg c m :=
      fun x hx => hms x (by simp [hms12, hx])
    have honq : onMessage c (q ++ ck) = (ms1, r) := by
      rw [hqr]
      apply onMessage_stream c ms1 r hms1
      rcases htail with ⟨rfl, _⟩ | ⟨m2, t2, hms2eq, hs, hne⟩
      · exact Or.inl rfl
      · exact Or.inr ⟨m2, hms2g m2 (by simp [hms2eq]), hs, hne⟩
    have hstep : feedChunks c (acc, q) (ck :: cks) =
        feedChunks c (acc ++ ms1, r) cks := by
      simp only [feedChunks, List.foldl_cons]
      rw [honq]
    rw [hstep]
    have hremain : r ++ cks.flatten = encStream c ms2 := by
      have h1 : (encStream c ms1 ++ r) ++ cks.flatten =
          encStream c ms := by
        rw [← hqr, List.append_assoc]
        exact hflat
      rw [hms12] at h1
      have hsplit : encStream c (ms1 ++ ms2) =
          encStream c ms1 ++ encStream c ms2 := by
        simp [encStream]
      rw [hsplit, List.append_assoc] at h1
      exact List.append_cancel_left h1
    rw [ih ms2 r (acc ++ ms1) hms2g htail hremain, hms12,
      List.append_assoc]

/-- Claim C1: feeding the concatenation of the encodings of well-formed
envelopes to ProtoRpcCodec::onMessage in arbitrary chunk sizes delivers
exactly those envelopes in order and consumes exactly the encoded bytes;
a buffer shorter than 8 bytes, or holding fewer than header + len bytes
for the peeked length, leaves the decoder stopped with nothing delivered
and nothing consumed; and on any parse failure the loop stops without
retrieving. -/
theorem rpc_codec_frame_boundary (M : Type) (c : PayloadCodec M)
    (ms : List M) (chunks : List (List Nat)) (buf : List Nat) :
    ((∀ m ∈ ms, GoodMsg c m) → chunks.flatten = encStream c ms →
      feedChunks c ([], []) chunks = (ms, [])) ∧
    (buf.length < 8 → onMessage c buf = ([], buf)) ∧
    (8 ≤ buf.length →
      ¬ (toInt32 (beVal (buf.take 4)) > kMaxMessageLen ∨
        toInt32 (beVal (buf.take 4)) < kMinMessageLen) →
      buf.length < kHeaderLen + (toInt32 (beVal (buf.take 4))).toNat →
      onMessage c buf = ([], buf)) ∧
    (8 ≤ buf.length →
      ¬ (toInt32 (beVal (buf.take 4)) > kMaxMessageLen ∨
        toInt32 (beVal (buf.take 4)) < kMinMessageLen) →
      kHeaderLen + (toInt32 (beVal (buf.take 4))).toNat ≤ buf.length →
      (parse c ((buf.drop kHeaderLen).take
        (toInt32 (beVal (buf.take 4))).toNat)).1 ≠ ErrorCode.kNoError →
      onMessage c buf = ([], buf)) := by
  refine ⟨?_, onMessage_short c buf, onMessage_stop_incomplete c buf,
    onMessage_stop_parsefail c buf⟩
  intro hms hstream
  have hmain := feedChunks_stream c chunks ms [] [] hms ?_ ?_
  · simpa using hmain
  · cases ms with
    | nil => exact Or.inl ⟨rfl, rfl⟩
    | cons m t =>
      refine Or.inr ⟨m, t, rfl, ⟨encodeFrame c m, rfl⟩, ?_⟩
      intro he
      have hl := congrArg List.length he
      rw [encodeFrame_length] at hl
      simp only [List.length_nil] at hl
      omega
  · simpa using hstream

/-- Witness for C1: the one-byte-payload codec, two envelopes (3 and 5),
their 26-byte stream split at byte 7 (inside the first frame); plus a
buffer holding only a frame header (length 9 peeked, 8 bytes present)
and a buffer holding a complete frame with a corrupted payload byte. -/
theorem rpc_codec_frame_boundary_witness :
    feedChunks natPayloadCodec ([], [])
        [(encStream natPayloadCodec [3, 5]).take 7,
          (encStream natPayloadCodec [3, 5]).drop 7] = ([3, 5], []) ∧
      onMessage natPayloadCodec [0, 0, 0, 9, 82, 80, 67, 48] =
        ([], [0, 0, 0, 9, 82, 80, 67, 48]) ∧
      onMessage natPayloadCodec
          [0, 0, 0, 9, 82, 80, 67, 48, 7, 4, 11, 1, 25] =
        ([], [0, 0, 0, 9, 82, 80, 67, 48, 7, 4, 11, 1, 25]) := by
  refine ⟨?_, ?_, ?_⟩
  · exact (rpc_codec_frame_boundary Nat natPayloadCodec [3, 5]
      [(encStream natPayloadCodec [3, 5]).take 7,
        (encStream natPayloadCodec [3, 5]).drop 7] []).1
      (by unfold GoodMsg; decide) (by decide)
  · exact (rpc_codec_frame_boundary Nat natPayloadCodec [] []
      [0, 0, 0, 9, 82, 80, 67, 48]).2.2.1
      (by decide) (by decide) (by decide)
  · exact (rpc_codec_frame_boundary Nat natPayloadCodec [] []
      [0, 0, 0, 9, 82, 80, 67, 48, 7, 4, 11, 1, 25]).2.2.2
      (by decide) (by decide) (by decide) (by decide)

/-- parse rejects with kCheckSumError any frame whose trailing checksum
is the adler32 of some other body. -/
theorem parse_bad_checksum {M : Type} (c : PayloadCodec M)
    (body : List Nat) (cks : Nat) (hcks : cks < 2 ^ 32)
    (hne : adler32 body ≠ cks) :
    parse c (body ++ be32 cks) = (ErrorCode.kCheckSumError, none) := by
  have hflen : (body ++ be32 cks).length = body.length + 4 := by
    simp [be32_length]
  unfold parse validateChecksum
  rw [hflen]
  have e1 : body.length + 4 - kChecksumLen = body.length := by
    simp [kChecksumLen]
  rw [e1, List.drop_left, List.take_left]
  rw [beVal_be32, Nat.mod_eq_of_lt hcks,
    Nat.mod_eq_of_lt (adler32_lt _)]
  rw [if_neg]
  simp only [beq_iff_eq]
  omega

/-- Claim C2: fillEmptyBuffer on an empty (fresh) buffer produces exactly
len || tag || payload || checksum: the tag is the 4 ASCII bytes RPC0, the
final 4 bytes are the big-endian adler32 over tag || payload, the leading
4 bytes are the big-endian count of all bytes after the length field
(4 + payload size + 4); the length is prepended into the head margin —
the reader index drops from kCheapPrepend to kCheapPrepend - 4 while the
writer index stays put — rather than appended. -/
theorem fillEmptyBuffer_wire_format (M : Type) (c : PayloadCodec M)
    (m : M) :
    (fillEmptyBuffer c Buffer.mkDefault m).readable =
      be32 (kHeaderLen + (c.enc m).length + kChecksumLen) ++ tagBytes ++
        c.enc m ++ be32 (adler32 (tagBytes ++ c.enc m)) ∧
      (fillEmptyBuffer c Buffer.mkDefault m).readable = encodeFrame c m ∧
      (fillEmptyBuffer c Buffer.mkDefault m).readerIndex =
        kCheapPrepend - kHeaderLen ∧
      (fillEmptyBuffer c Buffer.mkDefault m).writerIndex =
        kCheapPrepend + kHeaderLen + (c.enc m).length + kChecksumLen := by
  have h0 := canon_mkDefault
  have h1 := canon_append Buffer.mkDefault [] tagBytes h0
  rw [List.nil_append] at h1
  have h2 := canon_append (Buffer.mkDefault.append tagBytes) tagBytes
    (c.enc m) h1
  have hb2read : ((Buffer.mkDefault.append tagBytes).append
      (c.enc m)).readable = tagBytes ++ c.enc m := h2.2.2.2
  set b2 := (Buffer.mkDefault.append tagBytes).append (c.enc m) with hb2
  set cks := adler32 b2.readable with hcks
  have h3 := canon_append b2 (tagBytes ++ c.enc m) (be32 cks) h2
  set b3 := b2.append (be32 cks) with hb3
  set flen := b3.readableBytes with hflen
  have hfill : fillEmptyBuffer c Buffer.mkDefault m =
      b3.prepend (be32 flen) := rfl
  have hlen3 : flen = kHeaderLen + (c.enc m).length + kChecksumLen := by
    have e1 := h3.1
    have e2 := h3.2.1
    rw [hflen]
    unfold Buffer.readableBytes
    rw [e1, e2]
    simp [List.length_append, be32_length, tagBytes, kHeaderLen,
      kChecksumLen]
    omega
  have h4 := canon_prepend b3 (tagBytes ++ c.enc m ++ be32 cks)
    (be32 flen) h3 (by rw [be32_length]; simp [kCheapPrepend])
  refine ⟨?_, ?_, ?_, ?_⟩
  · rw [hfill, h4.1, hlen3, hcks, hb2read]
    simp [List.append_assoc]
  · have htl : (tagBytes ++ c.enc m).length = 4 + (c.enc m).length := by
      simp [tagBytes]
      omega
    have hXY : kHeaderLen + (c.enc m).length + kChecksumLen =
        (tagBytes ++ c.enc m).length + kChecksumLen := by
      rw [htl]
      simp [kHeaderLen]
    rw [hfill, h4.1, hlen3, hcks, hb2read]
    unfold encodeFrame
    simp only [List.append_assoc]
    rw [hXY]
  · rw [hfill, h4.2.1, be32_length]
    simp [kCheapPrepend, kHeaderLen]
  · rw [hfill, h4.2.2, h3.2.1]
    simp [List.length_append, be32_length, tagBytes, kHeaderLen,
      kChecksumLen, kCheapPrepend]
    omega

/-- Claim C9: TcpConnection::send(Buffer*) is a silent no-op whenever the
connection state is not kConnected: the connection fields (output buffer,
write interest, state) are unchanged, the caller buffer is not drained,
and no effect (socket write, queued task, error report) is produced. -/
theorem send_noop_when_not_connected
    (inLoopThread : Bool) (nwroteRet : Int) (errnoV : Nat)
    (c : TcpConn) (callerBuf : List Nat)
    (h : c.state_ ≠ TcpStateE.kConnected) :
    TcpConn.send inLoopThread nwroteRet errnoV c callerBuf =
      (c, callerBuf, []) := by
  unfold TcpConn.send
  simp [h]

/-- Witness for C9: a concrete disconnected connection, concrete caller
bytes. -/
theorem send_noop_when_not_connected_witness :
    (⟨TcpStateE.kDisconnected, false, [], false⟩ : TcpConn).state_ ≠
        TcpStateE.kConnected ∧
      TcpConn.send true 2 0 ⟨TcpStateE.kDisconnected, false, [], false⟩
          [1, 2, 3] =
        (⟨TcpStateE.kDisconnected, false, [], false⟩, [1, 2, 3], []) :=
  ⟨by decide,
    send_noop_when_not_connected true 2 0
      ⟨TcpStateE.kDisconnected, false, [], false⟩ [1, 2, 3] (by decide)⟩

/-- Claim C10: TcpConnection::forceCloseWithDelay only moves a kConnected
or kDisconnecting connection to kDisconnecting and produces no effect at
all (no scheduled close, no socket close, no callback); on every other
state it is the identity, and the call alone never makes the state
kDisconnected. -/
theorem forceCloseWithDelay_only_sets_disconnecting
    (c : TcpConn) (seconds : Nat) :
    (c.forceCloseWithDelay seconds).2 = [] ∧
      (c.forceCloseWithDelay seconds).1 =
        (if c.state_ = TcpStateE.kConnected ∨
            c.state_ = TcpStateE.kDisconnecting
         then { c with state_ := TcpStateE.kDisconnecting } else c) ∧
      ((c.forceCloseWithDelay seconds).1.state_ = TcpStateE.kDisconnected ↔
        c.state_ = TcpStateE.kDisconnected) := by
  unfold TcpConn.forceCloseWithDelay
  split <;> simp_all <;> rcases ‹_ ∨ _› with h | h <;> simp [h]

/-- Counterexample for C6: with the connect flag set, one retry at the
initial state closes only the socket and logs; the retry delay stays at
kInitRetryDelayMs — it is not doubled as the claim states — and no new
connect attempt is scheduled. -/
theorem connector_retry_counterexample :
    Connector.retry
        ⟨true, ConnectorStateEnum.kConnecting, kInitRetryDelayMs⟩ 5 =
      (⟨true, ConnectorStateEnum.kDisconnected, kInitRetryDelayMs⟩,
        [ConnectorEvent.closedSocket 5,
          ConnectorEvent.loggedRetryIn kInitRetryDelayMs]) ∧
      kInitRetryDelayMs ≠ min (kInitRetryDelayMs * 2) kMaxRetryDelayMs := by
  constructor
  · rfl
  · decide

/-- Claim C6 (amended): Connector::retry closes the failed socket and sets
the state to kDisconnected; when the connect flag is set it only logs the
current delay — the timer rearm and the delay doubling are commented out
in the source, so retryDelayMs_ never changes and no new connect attempt
is scheduled. -/
theorem connector_retry_amended (c : Connector) (sockfd : Nat) :
    (c.retry sockfd).1 =
        { c with state_ := ConnectorStateEnum.kDisconnected } ∧
      (c.retry sockfd).1.retryDelayMs_ = c.retryDelayMs_ ∧
      (c.retry sockfd).2 =
        (if c.connect_ then
          [ConnectorEvent.closedSocket sockfd,
            ConnectorEvent.loggedRetryIn c.retryDelayMs_]
        else
          [ConnectorEvent.closedSocket sockfd,
            ConnectorEvent.loggedNoConnect]) ∧
      ∀ d, ConnectorEvent.scheduledAttempt d ∉ (c.retry sockfd).2 := by
  unfold Connector.retry
  by_cases h : c.connect_ <;> simp [h]

/-- Counterexample for C7: with two connections pending and the callback
set, Acceptor::handleRead accepts only the first one — the second pending
connection is left in the kernel queue and gets no callback, so the
acceptor does not accept repeatedly until EAGAIN. -/
theorem acceptor_single_accept_counterexample :
    Acceptor.handleRead true
        [AcceptAttempt.conn 5 100, AcceptAttempt.conn 6 101] =
      ([AcceptorEvent.newConn 5 100], [AcceptAttempt.conn 6 101]) ∧
      AcceptorEvent.newConn 6 101 ∉
        (Acceptor.handleRead true
          [AcceptAttempt.conn 5 100, AcceptAttempt.conn 6 101]).1 := by
  constructor
  · rfl
  · decide

/-- Claim C7 (amended): on read readiness Acceptor::handleRead performs a
single accept: when a connection is pending it invokes
new_conn_cb(fd, peer_addr) if the callback is set and closes the
descriptor otherwise, consuming exactly that one pending connection; when
accept fails it only handles the EMFILE case. -/
theorem acceptor_handleRead_amended (cbSet : Bool) (fd peer : Nat)
    (rest : List AcceptAttempt) :
    Acceptor.handleRead cbSet (AcceptAttempt.conn fd peer :: rest) =
        ((if cbSet then [AcceptorEvent.newConn fd peer]
          else [AcceptorEvent.closedFd fd]), rest) ∧
      Acceptor.handleRead cbSet [] = ([], []) := by
  constructor
  · unfold Acceptor.handleRead
    by_cases h : cbSet <;> simp [h]
  · rfl

/-- The pending-task list after queueInLoop runs repeatedly from the loop
thread: each call appends its task. -/
theorem foldl_queueInLoop_pending (during : List Nat) (s : EventLoopState) :
    (during.foldl (fun st cb => queueInLoop true cb st) s).pendingFunctors =
      s.pendingFunctors ++ during := by
  induction during generalizing s with
  | nil => simp
  | cons cb t ih =>
    simp only [List.foldl_cons, ih]
    unfold queueInLoop
    split <;> simp

/-- Counterexample for C8: queueInLoop from a foreign thread performs a
wakeup write of wakeupWriteSize = 8 bytes (a uint64_t), not of one byte as
the claim states. -/
theorem queueInLoop_write_size_counterexample :
    queueInLoop false 7 ⟨[], false, []⟩ = ⟨[7], false, [wakeupWriteSize]⟩ ∧
      wakeupWriteSize ≠ 1 := by
  constructor
  · rfl
  · decide

/-- Claim C8 (amended): queueInLoop appends the task to the pending list
and writes the 8-byte value one to the wakeup fd exactly when the caller
is not the loop thread or the loop is currently running deferred tasks;
doPendingFunctors executes exactly the tasks pending at entry, and the
tasks queued during the iteration form the next pending list — they are
not executed in the current iteration. -/
theorem queueInLoop_and_doPendingFunctors
    (isInLoopThread : Bool) (cb : Nat) (s : EventLoopState)
    (queuedDuring : List Nat) :
    (queueInLoop isInLoopThread cb s).pendingFunctors =
        s.pendingFunctors ++ [cb] ∧
      ((queueInLoop isInLoopThread cb s).wakeupWrites =
        (if ¬ isInLoopThread ∨ s.callingPendingFunctors then
          s.wakeupWrites ++ [wakeupWriteSize] else s.wakeupWrites)) ∧
      (doPendingFunctors s queuedDuring).1 = s.pendingFunctors ∧
      (doPendingFunctors s queuedDuring).2.pendingFunctors = queuedDuring ∧
      (doPendingFunctors s queuedDuring).2.callingPendingFunctors = false := by
  refine ⟨?_, ?_, ?_, ?_, rfl⟩
  · unfold queueInLoop
    split <;> simp
  · unfold queueInLoop
    split <;> simp_all
  · rfl
  · show (doPendingFunctors s queuedDuring).2.pendingFunctors = queuedDuring
    unfold doPendingFunctors
    simp [foldl_queueInLoop_pending]

/-- handle_response_msg on an absent id is the identity with no events. -/
theorem handle_response_msg_absent (st : Outstandings) (msg : RpcMessage)
    (h : st.lookup msg.id = none) : handle_response_msg st msg = (st, []) := by
  unfold handle_response_msg
  rw [h]

/-- handle_response_msg on a present id erases the entry. -/
theorem handle_response_msg_found (st : Outstandings) (msg : RpcMessage)
    (out : OutstandingCall) (h : st.lookup msg.id = some out) :
    (handle_response_msg st msg).1 = eraseKey msg.id st := by
  unfold handle_response_msg
  rw [h]

/-- Unfolding List.lookup over a head with a different key. -/
theorem lookup_cons_of_ne (k : Int) (p : Int × OutstandingCall)
    (t : List (Int × OutstandingCall)) (h : p.1 ≠ k) :
    List.lookup k (p :: t) = List.lookup k t := by
  have hb : (k == p.1) = false := beq_eq_false_iff_ne.2 (Ne.symm h)
  cases p with
  | mk a b => simp only [List.lookup, hb]

/-- Unfolding List.lookup over a head with the same key. -/
theorem lookup_cons_of_eq (k : Int) (p : Int × OutstandingCall)
    (t : List (Int × OutstandingCall)) (h : p.1 = k) :
    List.lookup k (p :: t) = some p.2 := by
  have hb : (k == p.1) = true := beq_iff_eq.2 h.symm
  cases p with
  | mk a b => simp only [List.lookup, hb]

/-- Erasing a key removes it from lookup. -/
theorem lookup_eraseKey_self (id : Int) (st : Outstandings) :
    (eraseKey id st).lookup id = none := by
  induction st with
  | nil => rfl
  | cons p t ih =>
    by_cases h : p.1 = id
    · simpa [eraseKey, List.filter_cons, h] using ih
    · rw [show eraseKey id (p :: t) = p :: eraseKey id t by
        simp [eraseKey, List.filter_cons, h]]
      rw [lookup_cons_of_ne id p _ h]
      exact ih

/-- Erasing some key cannot make another key appear. -/
theorem lookup_eraseKey_none (id j : Int) (st : Outstandings)
    (h : st.lookup id = none) : (eraseKey j st).lookup id = none := by
  induction st with
  | nil => rfl
  | cons p t ih =>
    by_cases hpi : p.1 = id
    · rw [lookup_cons_of_eq id p t hpi] at h
      cases h
    · rw [lookup_cons_of_ne id p t hpi] at h
      by_cases hpj : p.1 = j
      · rw [show eraseKey j (p :: t) = eraseKey j t by
          simp [eraseKey, List.filter_cons, hpj]]
        exact ih h
      · rw [show eraseKey j (p :: t) = p :: eraseKey j t by
          simp [eraseKey, List.filter_cons, hpj]]
        rw [lookup_cons_of_ne id p _ hpi]
        exact ih h

/-- All events of one handle_response_msg call carry the id of the
handled envelope. -/
theorem handle_response_events_id (st : Outstandings) (msg : RpcMessage)
    (id : Int) (h : msg.id ≠ id) :
    ChannelEvent.ranDone id ∉ (handle_response_msg st msg).2 := by
  unfold handle_response_msg
  cases hfind : st.lookup msg.id with
  | none => simp
  | some out =>
    cases hr : out.response <;> cases hd : out.done <;>
      by_cases hmr : msg.response = ([] : List Nat) <;>
        simp_all <;> omega

/-- One handle_response_msg call runs at most one completion. -/
theorem handle_response_count_le_one (st : Outstandings) (msg : RpcMessage)
    (id : Int) :
    ((handle_response_msg st msg).2.count (ChannelEvent.ranDone id)) ≤ 1 := by
  unfold handle_response_msg
  cases hfind : st.lookup msg.id with
  | none => simp
  | some out =>
    cases hr : out.response <;> cases hd : out.done <;>
      by_cases hmr : msg.response = ([] : List Nat) <;>
        simp_all [List.count_cons, List.count_append, List.count_nil] <;>
        split <;> simp

/-- Once an id is absent from the table, no later response can run its
completion. -/
theorem no_ranDone_of_absent (msgs : List RpcMessage) (st : Outstandings)
    (id : Int) (h : st.lookup id = none) :
    ChannelEvent.ranDone id ∉ (processResponses st msgs).2 := by
  induction msgs generalizing st with
  | nil => simp [processResponses]
  | cons m ms ih =>
    simp only [processResponses, List.mem_append, not_or]
    constructor
    · by_cases hm : m.id = id
      · rw [handle_response_msg_absent st m (hm ▸ h)]
        simp
      · exact handle_response_events_id st m id hm
    · apply ih
      cases hfind : st.lookup m.id with
      | none =>
        rw [handle_response_msg_absent st m hfind]
        exact h
      | some out =>
        rw [handle_response_msg_found st m out hfind]
        exact lookup_eraseKey_none id m.id st h

/-- Claim C5: an outstanding completion runs at most once.
handle_response_msg removes the entry before the sink is filled and the
completion runs; a response whose id is absent leaves the table untouched
and produces no event; over any sequence of responses a given id's
completion runs at most once; and the channel destructor only releases
sinks and completions, never running one. -/
theorem rpc_completion_at_most_once
    (st : Outstandings) (msg : RpcMessage) (msgs : List RpcMessage)
    (id : Int) :
    (handle_response_msg st msg).1.lookup msg.id = none ∧
      (st.lookup msg.id = none → handle_response_msg st msg = (st, [])) ∧
      ((processResponses st msgs).2.count (ChannelEvent.ranDone id)) ≤ 1 ∧
      ChannelEvent.ranDone id ∉ channelDtor st := by
  refine ⟨?_, ?_, ?_, ?_⟩
  · cases hfind : st.lookup msg.id with
    | none =>
      rw [handle_response_msg_absent st msg hfind]
      exact hfind
    | some out =>
      rw [handle_response_msg_found st msg out hfind]
      exact lookup_eraseKey_self msg.id st
  · exact handle_response_msg_absent st msg
  · induction msgs generalizing st with
    | nil => simp [processResponses]
    | cons m ms ih =>
      simp only [processResponses, List.count_append]
      by_cases hm : m.id = id
      · cases hfind : st.lookup m.id with
        | none =>
          rw [handle_response_msg_absent st m hfind]
          simpa using ih st
        | some out =>
          have h1 := handle_response_msg_found st m out hfind
          have habs : (eraseKey m.id st).lookup id = none := by
            rw [← hm]
            exact lookup_eraseKey_self m.id st
          have hz :
              ((processResponses (eraseKey m.id st) ms).2.count
                (ChannelEvent.ranDone id)) = 0 :=
            List.count_eq_zero.2 (no_ranDone_of_absent ms _ id habs)
          rw [h1, hz]
          have := handle_response_count_le_one st m id
          omega
      · have hz : ((handle_response_msg st m).2.count
            (ChannelEvent.ranDone id)) = 0 :=
          List.count_eq_zero.2 (handle_response_events_id st m id hm)
        rw [hz]
        simpa using ih (handle_response_msg st m).1
  · unfold channelDtor
    induction st with
    | nil => simp
    | cons p t ih => simpa using ih

/-- Witness for C5: a concrete table with one outstanding call (id 5,
sink and completion both present); a response with the absent id 3 is
dropped silently, two responses for id 5 run its completion only once. -/
theorem rpc_completion_at_most_once_witness :
    handle_response_msg [((5 : Int), ⟨true, true⟩)] { id := 3 } =
        ([((5 : Int), ⟨true, true⟩)], []) ∧
      ((processResponses [((5 : Int), ⟨true, true⟩)]
          [{ id := 5 }, { id := 5 }]).2.count
        (ChannelEvent.ranDone 5)) ≤ 1 :=
  ⟨(rpc_completion_at_most_once [((5 : Int), ⟨true, true⟩)] { id := 3 }
      [] 0).2.1 (by decide),
    (rpc_completion_at_most_once [((5 : Int), ⟨true, true⟩)] { id := 3 }
      [{ id := 5 }, { id := 5 }] 5).2.2.1⟩

/-- The two frame bodies that differ in one payload byte, written with
the common parts factored out. -/
theorem body_set_decomp {M : Type} (c : PayloadCodec M) (m : M) (i b : Nat)
    (hi : i < (c.enc m).length) :
    tagBytes ++ (c.enc m).set i b =
        (tagBytes ++ (c.enc m).take i) ++ b :: (c.enc m).drop (i + 1) ∧
      tagBytes ++ c.enc m =
        (tagBytes ++ (c.enc m).take i) ++
          (c.enc m).get ⟨i, hi⟩ :: (c.enc m).drop (i + 1) := by
  constructor
  · rw [List.set_eq_take_cons_drop b hi, List.append_assoc]
  · conv_lhs => rw [← List.take_append_drop i (c.enc m),
      List.drop_eq_get_cons hi]
    rw [List.append_assoc]

/-- Claim C3: flipping any single payload byte of a well-formed encoded
frame (pre-checksum) makes ProtoRpcCodec::parse return kCheckSumError —
deterministically, since adler32 always detects a single-byte change —
and the decoder then stops without invoking the message callback and
without consuming any bytes from the buffer. -/
theorem checksum_flip_detected (M : Type) (c : PayloadCodec M) (m : M)
    (i b : Nat) (h : GoodMsg c m) (hi : i < (c.enc m).length)
    (hb : b < 256) (hne : b ≠ (c.enc m).get ⟨i, hi⟩) :
    parse c ((tagBytes ++ (c.enc m).set i b) ++
        be32 (adler32 (tagBytes ++ c.enc m))) =
      (ErrorCode.kCheckSumError, none) ∧
      onMessage c (be32 ((c.enc m).length + 8) ++
          ((tagBytes ++ (c.enc m).set i b) ++
            be32 (adler32 (tagBytes ++ c.enc m)))) =
        ([], be32 ((c.enc m).length + 8) ++
          ((tagBytes ++ (c.enc m).set i b) ++
            be32 (adler32 (tagBytes ++ c.enc m)))) := by
  obtain ⟨hdec, hbytes, hsize⟩ := h
  obtain ⟨hd1, hd2⟩ := body_set_decomp c m i b hi
  have hget : (c.enc m).get ⟨i, hi⟩ < 256 :=
    hbytes _ (List.get_mem (c.enc m) i hi)
  have hadlerne : adler32 (tagBytes ++ (c.enc m).set i b) ≠
      adler32 (tagBytes ++ c.enc m) := by
    rw [hd1, hd2]
    exact adler32_flip (tagBytes ++ (c.enc m).take i)
      ((c.enc m).drop (i + 1)) b ((c.enc m).get ⟨i, hi⟩)
      (by omega) (by omega) hne
  have hparsefail : parse c ((tagBytes ++ (c.enc m).set i b) ++
      be32 (adler32 (tagBytes ++ c.enc m))) =
      (ErrorCode.kCheckSumError, none) :=
    parse_bad_checksum c (tagBytes ++ (c.enc m).set i b)
      (adler32 (tagBytes ++ c.enc m)) (adler32_lt _) hadlerne
  refine ⟨hparsefail, ?_⟩
  set body2 := (tagBytes ++ (c.enc m).set i b) ++
    be32 (adler32 (tagBytes ++ c.enc m)) with hbody2
  have hbody2len : body2.length = (c.enc m).length + 8 := by
    rw [hbody2]
    simp [tagBytes_length, be32_length, List.length_set]
    omega
  set buf := be32 ((c.enc m).length + 8) ++ body2 with hbuf
  have hbuflen : buf.length = (c.enc m).length + 12 := by
    rw [hbuf, List.length_append, be32_length, hbody2len]
    omega
  have htake4 : buf.take 4 = be32 ((c.enc m).length + 8) := by
    rw [hbuf,
      List.take_append_of_le_length (by rw [be32_length])]
    exact List.take_of_length_le (by rw [be32_length])
  have htake4f : buf.take 4 = (encodeFrame c m).take 4 := by
    rw [htake4, encodeFrame_take4]
  have hgood : GoodMsg c m := ⟨hdec, hbytes, hsize⟩
  have hrange : ¬ (toInt32 (beVal (buf.take 4)) > kMaxMessageLen ∨
      toInt32 (beVal (buf.take 4)) < kMinMessageLen) := by
    rw [htake4f]
    exact frame_header_range c m hgood
  have htoNat : (toInt32 (beVal (buf.take 4))).toNat =
      (c.enc m).length + 8 := by
    rw [htake4f, frame_header_val c m hgood]
    rfl
  have hdropslice : (buf.drop kHeaderLen).take
      (toInt32 (beVal (buf.take 4))).toNat = body2 := by
    rw [htoNat, hbuf]
    have hk : kHeaderLen =
        (be32 ((c.enc m).length + 8)).length := rfl
    rw [hk, List.drop_left]
    exact List.take_of_length_le (by omega)
  apply onMessage_stop_parsefail c buf (by omega) hrange
    (by rw [htoNat]; simp [kHeaderLen]; omega)
  rw [hdropslice, hparsefail]
  intro hcon
  cases hcon

/-- Witness for C3: the one-byte-payload codec, envelope 3, payload byte
0 flipped to 7; parse reports kCheckSumError and the decoder consumes
nothing. -/
theorem checksum_flip_detected_witness :
    parse natPayloadCodec
        ((tagBytes ++ [(3 : Nat)].set 0 7) ++
          be32 (adler32 (tagBytes ++ [3]))) =
      (ErrorCode.kCheckSumError, none) ∧
      onMessage natPayloadCodec (be32 (1 + 8) ++
          ((tagBytes ++ [(3 : Nat)].set 0 7) ++
            be32 (adler32 (tagBytes ++ [3])))) =
        ([], be32 (1 + 8) ++
          ((tagBytes ++ [(3 : Nat)].set 0 7) ++
            be32 (adler32 (tagBytes ++ [3])))) :=
  checksum_flip_detected Nat natPayloadCodec 3 0 7
    (by unfold GoodMsg; decide) (by decide) (by decide) (by decide)

/-- Claim C4, evaluation at the failing input: with service "S"
registered exposing only method "Echo", a request for method "Missing"
makes handle_request_msg send a RESPONSE envelope with the same id, empty
body, and error NO_SERVICE — not NO_METHOD as the specification states:
the method-not-found branch of RpcChannel.cc line 193 assigns NO_SERVICE. -/
theorem handle_request_unknown_method_sends_NO_SERVICE :
    handle_request_msg (some [("S", ⟨["Echo"], fun _ => true⟩)])
        missingMethodRequest =
      (some { type := MessageType.RESPONSE, id := 1,
              error := RpcErrorCode.NO_SERVICE }, []) := by
  rfl

end network
